import Mathlib

/-!
# Cleaning-agent detection: a shallow embedding

This file embeds the record model, deduplication, bucketization, overlap-window
computation, correlation and metrics aggregation of the cleaning-agent detection
pipeline (`src/main.py`, `src/agent_lib.py`) and proves properties about them.

Conventions of the embedding:
* Time instants (`datetime` values in the source) are modelled as `Int`
  milliseconds since an epoch.  The source compares
  `timedelta.total_seconds()` (a real number) against second counts such as
  `60 * 60`; in milliseconds those bounds are `60 * 60 * 1000`, and a delta of
  3600.001 seconds is the integer 3600001.
* Records are taken post-construction: an `AlertRecord` already carries its
  derived `zone` and `elevator` fields.  File I/O and the interactive prompt
  loop are outside the embedded core, so `pull_sense_file` and
  `pull_clean_report_file` start from lists of constructed records.
* The fallible paths are explicit: `pull_sense_file` returns `Except PullErr _`
  because the source indexes `data[0]` on a possibly-empty filtered list, and
  `get_header_index` returns `Except (List String) _` mirroring the raised
  `KeyError` carrying the set of missing headers.
* Python dictionaries keyed by zone and elevator are modelled as
  insertion-ordered association lists; the source's dict keys are unique by
  construction, and lookups/updates act on the first matching key.
* The mutable `has_alert` flag on maintenance records is modelled by explicit
  state passing: the scan over a candidate bucket returns the updated bucket.
-/

/-- Holder for cleaning / maintenance records (`CleanRecord` dataclass).
`elevator` is filled in by the explode step; `has_alert` is the mutable
matched flag, false at construction. -/
structure CleanRecord where
  id : String
  location : String
  zone : String
  title : String
  dt : Int
  elevator : String := ""
  has_alert : Bool := false
deriving DecidableEq, Repr

/-- Holder for sensor alert records (`AlertRecord` dataclass), with the
derived `zone` and `elevator` fields already computed. -/
structure AlertRecord where
  dt : Int
  location : String
  id : String
  status : String
  zone : String := ""
  elevator : String := ""
deriving DecidableEq, Repr

/-- Holder for metrics information (`Metric` dataclass). -/
structure Metric where
  true_positive : List (AlertRecord × CleanRecord) := []
  false_positive : List AlertRecord := []
  false_negative : List CleanRecord := []
deriving DecidableEq, Repr

/-- Failure of `pull_sense_file`: the source evaluates `data[0].dt` on the
filtered list, which raises `IndexError` when the list is empty. -/
inductive PullErr
  | indexError
deriving DecidableEq, Repr

def exceptDecEq {e a : Type} [DecidableEq e] [DecidableEq a] :
    DecidableEq (Except e a) := fun x y =>
  match x, y with
  | .ok u, .ok v =>
    if h : u = v then isTrue (by rw [h]) else isFalse (fun hc => h (Except.ok.inj hc))
  | .error u, .error v =>
    if h : u = v then isTrue (by rw [h]) else isFalse (fun hc => h (Except.error.inj hc))
  | .ok _, .error _ => isFalse (fun hc => Except.noConfusion hc)
  | .error _, .ok _ => isFalse (fun hc => Except.noConfusion hc)

instance {e a : Type} [DecidableEq e] [DecidableEq a] : DecidableEq (Except e a) :=
  exceptDecEq

/-- Lower-cased character sequence of a string (Python `s.lower()`). -/
def lowerChars (s : String) : List Char := s.data.map Char.toLower

/-- Scan for the substring `"clean"` (Python `"clean" in s`). -/
def hasCleanFrom : List Char → Bool
  | 'c' :: 'l' :: 'e' :: 'a' :: 'n' :: _ => true
  | _ :: rest => hasCleanFrom rest
  | [] => false

/-- The alert filter: `"clean" in record.status.lower()`. -/
def statusClean (r : AlertRecord) : Bool := hasCleanFrom (lowerChars r.status)

/-- Semantics of `re.findall(r"\d{3}", s)`: all non-overlapping, leftmost-first matches of
three consecutive digits.  On a match the scan resumes after the matched
characters, otherwise it advances one character. -/
def findallD3 : List Char → List String
  | c1 :: c2 :: c3 :: rest =>
    if c1.isDigit && c2.isDigit && c3.isDigit then
      String.mk [c1, c2, c3] :: findallD3 rest
    else
      findallD3 (c2 :: c3 :: rest)
  | _ => []

/-- The function `get_elevator_records`: explode a cleaning record into one sibling per
3-digit match in its location field (`dataclasses.replace(record, elevator=n)`). -/
def get_elevator_records (record : CleanRecord) : List CleanRecord :=
  (findallD3 record.location.data).map (fun n => { record with elevator := n })

/-- The function `get_header_index`: map each required header name to its first column
index; if any required names are absent, fail with the list of all missing
names (the source raises `KeyError(header_diff)` with the whole set). -/
def get_header_index (headers_to_find header_values : List String) :
    Except (List String) (List (String × Nat)) :=
  let header_diff := headers_to_find.filter (fun h => !(header_values.contains h))
  if header_diff.length > 0 then
    Except.error header_diff
  else
    Except.ok (headers_to_find.filterMap (fun h =>
      (header_values.findIdx? (· == h)).map (fun i => (h, i))))

/-- Required columns of the sensor alert dataset (`pull_sense_file`). -/
def required_sense_cols : List String :=
  ["Date & Time Stamp", "Location Elevator #", "Alert ID", "Status"]

/-- Required columns of the maintenance dataset (`pull_clean_report_file`). -/
def required_clean_columns : List String :=
  ["#", "Title", "Address", "Created", "Zone"]

/-- The function `check_data_headers` on csv data: resolve headers against the first row;
on failure the caught exception leaves `(False, None)` and no column lookup
(hence no record construction) for this table. -/
def check_data_headers_csv (required_cols : List String) (data : List (List String)) :
    Bool × Option (List (String × Nat)) :=
  match data with
  | [] => (false, none)
  | hdr :: _ =>
    match get_header_index required_cols hdr with
    | Except.error _ => (false, none)
    | Except.ok lk => (true, some lk)

/-- The drop test of the alert deduplication loop:
`record.id == new_data[-1].id and time_diff <= 360 and time_diff > 0`. -/
def dedupDrop (k r : AlertRecord) : Bool :=
  r.id == k.id && decide (r.dt - k.dt ≤ 360 * 1000) && decide (r.dt - k.dt > 0)

/-- The loop of `pull_sense_file` over `data[1:]`: `k` is the last kept alert
(`new_data[-1]`); the min/max accumulators are updated only for kept records. -/
def dedupLoop : AlertRecord → Int → Int → List AlertRecord →
    List AlertRecord × Int × Int
  | _, min_dt, max_dt, [] => ([], min_dt, max_dt)
  | k, min_dt, max_dt, r :: rest =>
    if dedupDrop k r then
      dedupLoop k min_dt max_dt rest
    else
      let min_dt1 := if r.dt < min_dt then r.dt else min_dt
      let max_dt1 := if r.dt > max_dt then r.dt else max_dt
      let res := dedupLoop r min_dt1 max_dt1 rest
      (r :: res.1, res.2)

/-- The function `pull_sense_file` after the boundary I/O: filter to `"clean"` statuses,
read `data[0]` (IndexError on an empty filtered list), deduplicate, and return
the kept list with its min/max timestamps. -/
def pull_sense_file (raw : List AlertRecord) :
    Except PullErr (List AlertRecord × Int × Int) :=
  let data := raw.filter statusClean
  match data with
  | [] => Except.error PullErr.indexError
  | d0 :: rest =>
    let res := dedupLoop d0 d0.dt d0.dt rest
    Except.ok (d0 :: res.1, res.2.1, res.2.2)

/-- The instant `datetime(year=3000, month=1, day=1)` in epoch milliseconds. -/
def minDtSentinel : Int := 32503680000000

/-- The instant `datetime(year=1, month=1, day=1)` in epoch milliseconds (negative). -/
def maxDtSentinel : Int := -62135596800000

/-- The function `pull_clean_report_file` after the boundary I/O: explode each record,
keep only siblings whose (zone, elevator) occurs among the sensor locations,
then compute min/max timestamps over the filtered list (sentinel-initialised). -/
def pull_clean_report_file (sensor_locations : List (String × String))
    (data : List CleanRecord) : List CleanRecord × Int × Int :=
  let filtered_data := data.flatMap (fun record =>
    (get_elevator_records record).filter (fun nr =>
      sensor_locations.contains (nr.zone, nr.elevator)))
  let min_dt := filtered_data.foldl (fun m r => if r.dt < m then r.dt else m) minDtSentinel
  let max_dt := filtered_data.foldl (fun m r => if r.dt > m then r.dt else m) maxDtSentinel
  (filtered_data, min_dt, max_dt)

/-- Elevator-keyed inner mapping of the two-level record dictionaries. -/
abbrev Bucket (R : Type) := List (String × List R)

/-- Zone-keyed outer mapping: `Dict[Zone, Dict[Elevator, List[records]]]`. -/
abbrev Dict (R : Type) := List (String × Bucket R)

/-- Append `r` to the bucket of elevator `e`, creating it at the end if absent
(Python dict insertion order). -/
def addToBucket {R : Type} : Bucket R → String → R → Bucket R
  | [], e, r => [(e, [r])]
  | eb :: rest, e, r =>
    if eb.1 = e then (eb.1, eb.2 ++ [r]) :: rest else eb :: addToBucket rest e r

/-- Append `r` under zone `z` and elevator `e`, creating keys at the end. -/
def addToDict {R : Type} : Dict R → String → String → R → Dict R
  | [], z, e, r => [(z, [(e, [r])])]
  | zb :: rest, z, e, r =>
    if zb.1 = z then (zb.1, addToBucket zb.2 e r) :: rest else zb :: addToDict rest z e r

/-- Stable insertion by timestamp (ties keep the earlier-inserted element first). -/
def insertByDt {R : Type} (dtOf : R → Int) (a : R) : List R → List R
  | [] => [a]
  | b :: l => if dtOf a ≤ dtOf b then a :: b :: l else b :: insertByDt dtOf a l

/-- Stable sort by timestamp, the semantics of
`sorted(elevator_data, key=lambda x: x.dt)`. -/
def sortByDt {R : Type} (dtOf : R → Int) (l : List R) : List R :=
  l.foldr (insertByDt dtOf) []

/-- One iteration of the grouping loop of `list_to_dict`: skip a record whose
timestamp is outside `[dt_min, dt_max]`, otherwise append it under its zone
and elevator keys. -/
def bucketizeStep {R : Type} (dtOf : R → Int) (zOf eOf : R → String) (dt_min dt_max : Int)
    (d : Dict R) (r : R) : Dict R :=
  if dtOf r < dt_min ∨ dtOf r > dt_max then d
  else addToDict d (zOf r) (eOf r) r

/-- The record-survival test of `list_to_dict` as a boolean predicate:
true exactly when the record is not dropped by the window test. -/
def keepRecord {R : Type} (dtOf : R → Int) (dt_min dt_max : Int) (r : R) : Bool :=
  !(decide (dtOf r < dt_min) || decide (dtOf r > dt_max))

/-- The final pass of `list_to_dict`: sort every innermost list by timestamp. -/
def sortInnermost {R : Type} (dtOf : R → Int) (d : Dict R) : Dict R :=
  d.map (fun zb => (zb.1, zb.2.map (fun eb => (eb.1, sortByDt dtOf eb.2))))

/-- The function `list_to_dict`: drop records outside `[dt_min, dt_max]`, group by zone then
elevator in insertion order, then sort every innermost list by timestamp. -/
def list_to_dict {R : Type} (dtOf : R → Int) (zOf eOf : R → String)
    (list_data : List R) (dt_min dt_max : Int) : Dict R :=
  sortInnermost dtOf
    (list_data.foldl (bucketizeStep dtOf zOf eOf dt_min dt_max) [])

/-- All records of a bucket, in mapping order. -/
def bucketRecords {R : Type} (b : Bucket R) : List R := b.flatMap (fun eb => eb.2)

/-- All records of a dictionary, in mapping order. -/
def dictRecords {R : Type} (d : Dict R) : List R := d.flatMap (fun zb => bucketRecords zb.2)

/-- First-match bucket lookup (`d[e]`, `none` for `KeyError`). -/
def bucketFind {R : Type} : Bucket R → String → Option (List R)
  | [], _ => none
  | eb :: rest, e => if eb.1 = e then some eb.2 else bucketFind rest e

/-- Two-level lookup `d[z][e]` (`none` for `KeyError` at either level). -/
def dictFind {R : Type} : Dict R → String → String → Option (List R)
  | [], _, _ => none
  | zb :: rest, z, e => if zb.1 = z then bucketFind zb.2 e else dictFind rest z e

/-- Replace the record list stored at elevator `e` (first match). -/
def bucketUpdate {R : Type} : Bucket R → String → List R → Bucket R
  | [], _, _ => []
  | eb :: rest, e, l => if eb.1 = e then (eb.1, l) :: rest else eb :: bucketUpdate rest e l

/-- Replace the record list stored at `d[z][e]` (first match). -/
def dictUpdate {R : Type} : Dict R → String → String → List R → Dict R
  | [], _, _, _ => []
  | zb :: rest, z, e, l =>
    if zb.1 = z then (zb.1, bucketUpdate zb.2 e l) :: rest else zb :: dictUpdate rest z e l

/-- The inner candidate scan of `main` for one alert `a`: walk the maintenance
bucket, flag every candidate with `0 <= time_diff <= 60*60` seconds, record a
true-positive pair only for the first such candidate (`match_found`), and
break at the first candidate with `time_diff > 60*60`.  Returns the updated
bucket, the final `match_found`, and the pairs appended to `true_positive`. -/
def scanClean (a : AlertRecord) : Bool → List CleanRecord →
    List CleanRecord × Bool × List (AlertRecord × CleanRecord)
  | mf, [] => ([], mf, [])
  | mf, c :: rest =>
    let time_diff := c.dt - a.dt
    if 0 ≤ time_diff ∧ time_diff ≤ 60 * 60 * 1000 then
      let c1 := { c with has_alert := true }
      let res := scanClean a true rest
      (c1 :: res.1, res.2.1, if mf then res.2.2 else (a, c1) :: res.2.2)
    else if time_diff > 60 * 60 * 1000 then
      (c :: rest, mf, [])
    else
      let res := scanClean a mf rest
      (c :: res.1, res.2.1, res.2.2)

/-- Body of the alert loop of `main` for one alert: a missing (zone, elevator)
key in the maintenance dictionary is caught (`except ... pass`, `match_found`
stays false, the alert becomes a false positive); otherwise scan the bucket
and store the updated bucket back. -/
def processAlert (st : Metric × Dict CleanRecord) (record : AlertRecord) :
    Metric × Dict CleanRecord :=
  match dictFind st.2 record.zone record.elevator with
  | none => ({ st.1 with false_positive := st.1.false_positive ++ [record] }, st.2)
  | some lst =>
    let res := scanClean record false lst
    let cd := dictUpdate st.2 record.zone record.elevator res.1
    let m := { st.1 with
      true_positive := st.1.true_positive ++ res.2.2,
      false_positive := if res.2.1 then st.1.false_positive
                        else st.1.false_positive ++ [record] }
    (m, cd)

/-- Loop over one elevator's alert sequence. -/
def processElevator (st : Metric × Dict CleanRecord) (eb : String × List AlertRecord) :
    Metric × Dict CleanRecord :=
  eb.2.foldl processAlert st

/-- Loop over one zone's elevator buckets. -/
def processZone (st : Metric × Dict CleanRecord) (zb : String × Bucket AlertRecord) :
    Metric × Dict CleanRecord :=
  zb.2.foldl processElevator st

/-- The alert pass of `main`: the triple loop over the sensor dictionary. -/
def correlate (sd : Dict AlertRecord) (st : Metric × Dict CleanRecord) :
    Metric × Dict CleanRecord :=
  sd.foldl processZone st

/-- The false-negative sweep of `main`: every maintenance record whose
`has_alert` flag is still false. -/
def sweepFN (cd : Dict CleanRecord) : List CleanRecord :=
  cd.flatMap (fun zb => zb.2.flatMap (fun eb =>
    eb.2.filter (fun r => r.has_alert == false)))

/-- Computes `dt_min = max(sense_dt_min, clean_dt_min) - timedelta(seconds=60*60)`. -/
def windowMin (sense_dt_min clean_dt_min : Int) : Int :=
  max sense_dt_min clean_dt_min - 60 * 60 * 1000

/-- Computes `dt_max = min(sense_dt_max, clean_dt_max) + timedelta(seconds=60*60)`. -/
def windowMax (sense_dt_max clean_dt_max : Int) : Int :=
  min sense_dt_max clean_dt_max + 60 * 60 * 1000

/-- The correlation pass over already-bucketized data followed by the
false-negative sweep, starting from empty metrics.  The final maintenance
dictionary is returned alongside the metrics. -/
def correlateAndSweep (sd : Dict AlertRecord) (cd : Dict CleanRecord) :
    Metric × Dict CleanRecord :=
  let res := correlate sd (({} : Metric), cd)
  ({ res.1 with false_negative := res.1.false_negative ++ sweepFN res.2 }, res.2)

/-- Lines 31-71 of `main`: compute the overlap window, bucketize both
datasets, run the correlation pass and the false-negative sweep. -/
def runCore (sense_data : List AlertRecord) (sense_dt_min sense_dt_max : Int)
    (clean_data : List CleanRecord) (clean_dt_min clean_dt_max : Int) :
    Metric × Dict CleanRecord :=
  let dt_min := windowMin sense_dt_min clean_dt_min
  let dt_max := windowMax sense_dt_max clean_dt_max
  correlateAndSweep
    (list_to_dict (fun r => r.dt) (fun r => r.zone) (fun r => r.elevator)
      sense_data dt_min dt_max)
    (list_to_dict (fun r => r.dt) (fun r => r.zone) (fun r => r.elevator)
      clean_data dt_min dt_max)

/-- The `main` function of `main.py`: load and deduplicate alerts (propagating
the IndexError of `pull_sense_file`), collect sensor locations, load the
filtered maintenance records, return zero-count metrics when either list is
empty, else run the correlation core. -/
def mainRun (senseRaw : List AlertRecord) (cleanRaw : List CleanRecord) :
    Except PullErr Metric := do
  let s ← pull_sense_file senseRaw
  let sense_data := s.1
  if sense_data.length = 0 then return ({} : Metric)
  let sensor_locations := sense_data.map (fun r => (r.zone, r.elevator))
  let c := pull_clean_report_file sensor_locations cleanRaw
  if c.1.length = 0 then return ({} : Metric)
  return (runCore sense_data s.2.1 s.2.2 c.1 c.2.1 c.2.2).1

/-- The function `export_metrics` reduced to its observable decision: `true` when the
workbook is written, `false` when all three counts are zero and the export is
skipped. -/
def export_metrics (metrics : Metric) : Bool :=
  !(metrics.true_positive.length + metrics.false_negative.length
      + metrics.false_positive.length == 0)

/-- The qualification window of the correlation engine:
`0 <= time_diff <= 60*60` seconds, both endpoints inclusive. -/
def qualifies (a : AlertRecord) (c : CleanRecord) : Prop :=
  0 ≤ c.dt - a.dt ∧ c.dt - a.dt ≤ 60 * 60 * 1000

instance (a : AlertRecord) (c : CleanRecord) : Decidable (qualifies a c) :=
  inferInstanceAs (Decidable (_ ∧ _))

/-- Flag a candidate when it qualifies for alert `a`, else leave it unchanged. -/
def flagQ (a : AlertRecord) (c : CleanRecord) : CleanRecord :=
  if qualifies a c then { c with has_alert := true } else c

/-- The deduplication rule as the specification words it (Policy A): maintain
the last kept alert `k`; drop `r` exactly when `r.id = k.id` and
`0 < r.dt - k.dt ≤ 360` seconds; otherwise keep `r` and it becomes the new `k`. -/
def dedupSpec : AlertRecord → List AlertRecord → List AlertRecord
  | _, [] => []
  | k, r :: rest =>
    if r.id = k.id ∧ 0 < r.dt - k.dt ∧ r.dt - k.dt ≤ 360 * 1000 then
      dedupSpec k rest
    else
      r :: dedupSpec r rest

/-- Erase the mutable flag: the constant part of a maintenance record. -/
def clearFlag (c : CleanRecord) : CleanRecord := { c with has_alert := false }

/-! Concrete records used by the witnesses below. -/

/-- Concrete alert used in the C1 witness. -/
def c1AlertW : AlertRecord :=
  { dt := 0, location := "Alewife 101", id := "1", status := "cleaning agent detected",
    zone := "alewife", elevator := "101" }

/-- Concrete maintenance record used in the C1 witness, at time `t`. -/
def c1CleanW (t : Int) : CleanRecord :=
  { id := "9", location := "Elevator 101", zone := "alewife", title := "Cleaning",
    dt := t, elevator := "101" }

/-- Concrete alert used in the C3 witness, at time `t` with id `i`. -/
def c3AlertW (t : Int) (i : String) : AlertRecord :=
  { dt := t, location := "Alewife 101", id := i, status := "Elevator Cleaning",
    zone := "alewife", elevator := "101" }

/-- Concrete maintenance record used in the C6 witness. -/
def c6CleanW : CleanRecord :=
  { id := "77", location := "Elevators 101 and 102", zone := "alewife",
    title := "Elevator Cleaning", dt := 1000 }

/-- Alert whose status does not contain `"clean"`, used for C4. -/
def c4OpenAlert : AlertRecord :=
  { dt := 0, location := "Alewife 101", id := "1", status := "Open",
    zone := "alewife", elevator := "101" }

/-- Alert at time 0 used in the C2 counterexample. -/
def c2Alert1 : AlertRecord :=
  { dt := 0, location := "Alewife 100", id := "1", status := "Cleaning",
    zone := "alewife", elevator := "100" }

/-- Alert at time 100000 s used in the C2 counterexample. -/
def c2Alert2 : AlertRecord :=
  { dt := 100000000, location := "Alewife 100", id := "2", status := "Cleaning",
    zone := "alewife", elevator := "100" }

/-- Maintenance record at time 100000 s used in the C2 counterexample. -/
def c2Clean1 : CleanRecord :=
  { id := "5", location := "Elevator 100", zone := "alewife", title := "Clean",
    dt := 100000000 }

/-- Maintenance record for a location with alerts, used in the C9 witness. -/
def c9CleanKept : CleanRecord :=
  { id := "1", location := "Elevator 101", zone := "alewife", title := "Cleaning", dt := 5000 }

/-- Maintenance record for a location with no alerts, used in the C9 witness. -/
def c9CleanDropped : CleanRecord :=
  { id := "2", location := "Elevator 202", zone := "davis", title := "Cleaning", dt := 6000 }

/-! ## Lemmas about the candidate scan -/

theorem qual_trichotomy (a : AlertRecord) (c : CleanRecord) :
    qualifies a c ∨ c.dt - a.dt < 0 ∨ c.dt - a.dt > 60 * 60 * 1000 := by
  rcases lt_or_le (c.dt - a.dt) 0 with h | h
  · exact Or.inr (Or.inl h)
  · rcases le_or_lt (c.dt - a.dt) (60 * 60 * 1000) with h2 | h2
    · exact Or.inl ⟨h, h2⟩
    · exact Or.inr (Or.inr h2)

theorem not_qual_of_late (a : AlertRecord) (c : CleanRecord)
    (h : c.dt - a.dt > 60 * 60 * 1000) : ¬ qualifies a c :=
  fun hq => absurd hq.2 (not_le.mpr h)

theorem not_qual_of_early (a : AlertRecord) (c : CleanRecord)
    (h : c.dt - a.dt < 0) : ¬ qualifies a c :=
  fun hq => absurd hq.1 (not_le.mpr h)

theorem scanClean_nil (a : AlertRecord) (mf : Bool) : scanClean a mf [] = ([], mf, []) := rfl

theorem scanClean_cons_qual (a : AlertRecord) (mf : Bool) (c : CleanRecord)
    (rest : List CleanRecord) (h : qualifies a c) :
    scanClean a mf (c :: rest) =
      ({ c with has_alert := true } :: (scanClean a true rest).1,
       (scanClean a true rest).2.1,
       if mf then (scanClean a true rest).2.2
       else (a, { c with has_alert := true }) :: (scanClean a true rest).2.2) := by
  simp only [scanClean]
  rw [if_pos ⟨h.1, h.2⟩]

theorem scanClean_cons_late (a : AlertRecord) (mf : Bool) (c : CleanRecord)
    (rest : List CleanRecord) (h : c.dt - a.dt > 60 * 60 * 1000) :
    scanClean a mf (c :: rest) = (c :: rest, mf, []) := by
  simp only [scanClean]
  rw [if_neg (fun hc => not_qual_of_late a c h ⟨hc.1, hc.2⟩), if_pos h]

theorem scanClean_cons_early (a : AlertRecord) (mf : Bool) (c : CleanRecord)
    (rest : List CleanRecord) (h : c.dt - a.dt < 0) :
    scanClean a mf (c :: rest) =
      (c :: (scanClean a mf rest).1, (scanClean a mf rest).2.1, (scanClean a mf rest).2.2) := by
  simp only [scanClean]
  rw [if_neg (fun hc => not_qual_of_early a c h ⟨hc.1, hc.2⟩),
    if_neg (not_lt.mpr (le_of_lt (lt_of_lt_of_le h (by norm_num))))]

theorem scanClean_fst_mf (a : AlertRecord) (l : List CleanRecord) (mf1 mf2 : Bool) :
    (scanClean a mf1 l).1 = (scanClean a mf2 l).1 := by
  induction l generalizing mf1 mf2 with
  | nil => rfl
  | cons c rest ih =>
    rcases qual_trichotomy a c with h | h | h
    · rw [scanClean_cons_qual a mf1 c rest h, scanClean_cons_qual a mf2 c rest h]
    · rw [scanClean_cons_early a mf1 c rest h, scanClean_cons_early a mf2 c rest h]
      simp [ih mf1 mf2]
    · rw [scanClean_cons_late a mf1 c rest h, scanClean_cons_late a mf2 c rest h]

theorem scanClean_true_pairs (a : AlertRecord) (l : List CleanRecord) :
    (scanClean a true l).2.2 = [] := by
  induction l with
  | nil => rfl
  | cons c rest ih =>
    rcases qual_trichotomy a c with h | h | h
    · rw [scanClean_cons_qual a true c rest h]; simpa using ih
    · rw [scanClean_cons_early a true c rest h]; simpa using ih
    · rw [scanClean_cons_late a true c rest h]

theorem scanClean_true_flag (a : AlertRecord) (l : List CleanRecord) :
    (scanClean a true l).2.1 = true := by
  induction l with
  | nil => rfl
  | cons c rest ih =>
    rcases qual_trichotomy a c with h | h | h
    · rw [scanClean_cons_qual a true c rest h]; simpa using ih
    · rw [scanClean_cons_early a true c rest h]; simpa using ih
    · rw [scanClean_cons_late a true c rest h]

theorem scanClean_pairs_length (a : AlertRecord) (l : List CleanRecord) :
    (scanClean a false l).2.2.length = if (scanClean a false l).2.1 then 1 else 0 := by
  induction l with
  | nil => rfl
  | cons c rest ih =>
    rcases qual_trichotomy a c with h | h | h
    · rw [scanClean_cons_qual a false c rest h]
      simp [scanClean_true_pairs, scanClean_true_flag]
    · rw [scanClean_cons_early a false c rest h]; simpa using ih
    · rw [scanClean_cons_late a false c rest h]; rfl

theorem scanClean_pairs_fst (a : AlertRecord) (mf : Bool) (l : List CleanRecord) :
    ∀ p ∈ (scanClean a mf l).2.2, p.1 = a := by
  induction l generalizing mf with
  | nil => intro p hp; simp [scanClean_nil] at hp
  | cons c rest ih =>
    intro p hp
    rcases qual_trichotomy a c with h | h | h
    · rw [scanClean_cons_qual a mf c rest h] at hp
      rcases mf with _ | _
      · simp only [Bool.false_eq_true, if_false, List.mem_cons] at hp
        rcases hp with hp | hp
        · rw [hp]
        · exact ih true p hp
      · simp only [if_true] at hp
        exact ih true p hp
    · rw [scanClean_cons_early a mf c rest h] at hp
      exact ih mf p hp
    · rw [scanClean_cons_late a mf c rest h] at hp
      simp at hp

theorem clearFlag_flag (c : CleanRecord) : clearFlag { c with has_alert := true } = clearFlag c := rfl

theorem scanClean_map_clearFlag (a : AlertRecord) (mf : Bool) (l : List CleanRecord) :
    (scanClean a mf l).1.map clearFlag = l.map clearFlag := by
  induction l generalizing mf with
  | nil => rfl
  | cons c rest ih =>
    rcases qual_trichotomy a c with h | h | h
    · rw [scanClean_cons_qual a mf c rest h]
      simp only [List.map_cons, clearFlag_flag, ih true]
    · rw [scanClean_cons_early a mf c rest h]
      simp only [List.map_cons, ih mf]
    · rw [scanClean_cons_late a mf c rest h]

theorem scanClean_length (a : AlertRecord) (mf : Bool) (l : List CleanRecord) :
    (scanClean a mf l).1.length = l.length := by
  have h := congrArg List.length (scanClean_map_clearFlag a mf l)
  simpa using h

theorem mapFlag_id (a : AlertRecord) (l : List CleanRecord)
    (h : ∀ x ∈ l, ¬ qualifies a x) : l.map (flagQ a) = l := by
  induction l with
  | nil => rfl
  | cons c rest ih =>
    simp only [List.map_cons]
    rw [flagQ, if_neg (h c (by simp))]
    rw [ih (fun x hx => h x (by simp [hx]))]

theorem scanClean_map_flagQ (a : AlertRecord) (mf : Bool) (l : List CleanRecord)
    (hs : List.Pairwise (fun x y : CleanRecord => x.dt ≤ y.dt) l) :
    (scanClean a mf l).1 = l.map (flagQ a) := by
  induction l generalizing mf with
  | nil => rfl
  | cons c rest ih =>
    rw [List.pairwise_cons] at hs
    rcases qual_trichotomy a c with h | h | h
    · rw [scanClean_cons_qual a mf c rest h]
      simp only [List.map_cons]
      rw [flagQ, if_pos h, ih true hs.2]
    · rw [scanClean_cons_early a mf c rest h]
      simp only [List.map_cons]
      rw [flagQ, if_neg (not_qual_of_early a c h), ih mf hs.2]
    · rw [scanClean_cons_late a mf c rest h]
      have hrest : ∀ x ∈ rest, ¬ qualifies a x := fun x hx => by
        have hcx : c.dt ≤ x.dt := hs.1 x hx
        exact not_qual_of_late a x (by omega)
      simp only [List.map_cons]
      rw [flagQ, if_neg (not_qual_of_late a c h), mapFlag_id a rest hrest]

theorem scanClean_find_pairs (a : AlertRecord) (l : List CleanRecord)
    (hs : List.Pairwise (fun x y : CleanRecord => x.dt ≤ y.dt) l) :
    (scanClean a false l).2.2 =
      (l.find? (fun c => decide (qualifies a c))).elim []
        (fun c => [(a, { c with has_alert := true })]) := by
  induction l with
  | nil => rfl
  | cons c rest ih =>
    rw [List.pairwise_cons] at hs
    rcases qual_trichotomy a c with h | h | h
    · rw [scanClean_cons_qual a false c rest h]
      rw [List.find?_cons_of_pos _ (by simpa using h)]
      simp [scanClean_true_pairs]
    · rw [scanClean_cons_early a false c rest h]
      rw [List.find?_cons_of_neg _ (by simpa using not_qual_of_early a c h)]
      exact ih hs.2
    · rw [scanClean_cons_late a false c rest h]
      rw [List.find?_cons_of_neg _ (by simpa using not_qual_of_late a c h)]
      have hrest : ∀ x ∈ rest, ¬ qualifies a x := fun x hx => by
        have hcx : c.dt ≤ x.dt := hs.1 x hx
        exact not_qual_of_late a x (by omega)
      rw [List.find?_eq_none.mpr (by simpa using hrest)]
      rfl

/-! ## C1: the correlation window scan -/

/-- C1: for an alert `a` and the time-sorted maintenance sequence of its
(zone, elevator) key, a candidate `c` qualifies exactly when
`0 ≤ c.dt - a.dt ≤ 3600` seconds with both endpoints inclusive (a delta of
exactly 0 or exactly 3600 s qualifies, 3600.001 s = 3600001 ms does not);
candidates with negative delta are skipped without ending the scan; every
qualifying candidate gets its `has_alert` flag set; the first qualifying
candidate is the unique true-positive pair recorded for `a`; and the scan
stops at the first candidate whose delta exceeds 3600 s, leaving the remainder
of the sequence untouched. -/
theorem C1_window_scan (a : AlertRecord) (l : List CleanRecord)
    (hsorted : List.Pairwise (fun x y : CleanRecord => x.dt ≤ y.dt) l) :
    (∀ c : CleanRecord, qualifies a c ↔ (0 ≤ c.dt - a.dt ∧ c.dt - a.dt ≤ 60 * 60 * 1000)) ∧
    (∀ c : CleanRecord, (c.dt - a.dt = 0 ∨ c.dt - a.dt = 60 * 60 * 1000) → qualifies a c) ∧
    (∀ c : CleanRecord, c.dt - a.dt = 60 * 60 * 1000 + 1 → ¬ qualifies a c) ∧
    (∀ (mf : Bool) (c : CleanRecord) (rest : List CleanRecord), c.dt - a.dt < 0 →
      scanClean a mf (c :: rest) =
        (c :: (scanClean a mf rest).1, (scanClean a mf rest).2.1, (scanClean a mf rest).2.2)) ∧
    (∀ (mf : Bool) (c : CleanRecord) (rest : List CleanRecord), c.dt - a.dt > 60 * 60 * 1000 →
      scanClean a mf (c :: rest) = (c :: rest, mf, [])) ∧
    (scanClean a false l).1 = l.map (flagQ a) ∧
    (scanClean a false l).2.2 =
      (l.find? (fun c => decide (qualifies a c))).elim []
        (fun c => [(a, { c with has_alert := true })]) := by
  refine ⟨fun c => Iff.rfl, ?_, ?_, ?_, ?_, ?_, ?_⟩
  · intro c h; unfold qualifies; omega
  · intro c h; unfold qualifies; omega
  · intro mf c rest h; exact scanClean_cons_early a mf c rest h
  · intro mf c rest h; exact scanClean_cons_late a mf c rest h
  · exact scanClean_map_flagQ a false l hsorted
  · exact scanClean_find_pairs a l hsorted



/-- Witness for C1 at a concrete sorted candidate list with deltas
-100 s, 50 s, 3600 s, 3600.001 s and 5000 s: exactly the 50 s and 3600 s
candidates are flagged and the rest are untouched. -/
theorem C1_window_scan_witness :
    (scanClean c1AlertW false
        [c1CleanW (-100000), c1CleanW 50000, c1CleanW 3600000, c1CleanW 3600001,
         c1CleanW 5000000]).1 =
      [c1CleanW (-100000), { c1CleanW 50000 with has_alert := true },
       { c1CleanW 3600000 with has_alert := true }, c1CleanW 3600001,
       c1CleanW 5000000] := by
  have h := C1_window_scan c1AlertW
    [c1CleanW (-100000), c1CleanW 50000, c1CleanW 3600000, c1CleanW 3600001,
     c1CleanW 5000000] (by decide)
  rw [h.2.2.2.2.2.1]
  decide

/-! ## Lemmas about deduplication -/

theorem dedupDrop_true_iff (k r : AlertRecord) :
    dedupDrop k r = true ↔ (r.id = k.id ∧ r.dt - k.dt ≤ 360 * 1000 ∧ r.dt - k.dt > 0) := by
  simp [dedupDrop, and_assoc]

theorem if_lt_eq_min (x m : Int) : (if x < m then x else m) = min m x := by
  rw [min_def]; split_ifs <;> omega

theorem if_gt_eq_max (x m : Int) : (if x > m then x else m) = max m x := by
  rw [max_def]; split_ifs <;> omega

theorem dedupLoop_fst (l : List AlertRecord) : ∀ (k : AlertRecord) (mn mx : Int),
    (dedupLoop k mn mx l).1 = dedupSpec k l := by
  induction l with
  | nil => intro k mn mx; rfl
  | cons r rest ih =>
    intro k mn mx
    cases hdd : dedupDrop k r with
    | true =>
      have hspec : r.id = k.id ∧ 0 < r.dt - k.dt ∧ r.dt - k.dt ≤ 360 * 1000 := by
        have h := (dedupDrop_true_iff k r).mp hdd
        exact ⟨h.1, h.2.2, h.2.1⟩
      rw [dedupLoop, if_pos hdd, dedupSpec, if_pos hspec]
      exact ih k mn mx
    | false =>
      have hspec : ¬ (r.id = k.id ∧ 0 < r.dt - k.dt ∧ r.dt - k.dt ≤ 360 * 1000) := by
        intro hc
        have := (dedupDrop_true_iff k r).mpr ⟨hc.1, hc.2.2, hc.2.1⟩
        rw [this] at hdd; cases hdd
      rw [dedupLoop, if_neg (by simp [hdd]), dedupSpec, if_neg hspec]
      simp only [List.cons.injEq, true_and]
      exact ih r _ _

theorem dedupLoop_min (l : List AlertRecord) : ∀ (k : AlertRecord) (mn mx : Int),
    (dedupLoop k mn mx l).2.1 = ((dedupSpec k l).map (fun r => r.dt)).foldl min mn := by
  induction l with
  | nil => intro k mn mx; rfl
  | cons r rest ih =>
    intro k mn mx
    cases hdd : dedupDrop k r with
    | true =>
      have hspec : r.id = k.id ∧ 0 < r.dt - k.dt ∧ r.dt - k.dt ≤ 360 * 1000 := by
        have h := (dedupDrop_true_iff k r).mp hdd
        exact ⟨h.1, h.2.2, h.2.1⟩
      rw [dedupLoop, if_pos hdd, dedupSpec, if_pos hspec]
      exact ih k mn mx
    | false =>
      have hspec : ¬ (r.id = k.id ∧ 0 < r.dt - k.dt ∧ r.dt - k.dt ≤ 360 * 1000) := by
        intro hc
        have := (dedupDrop_true_iff k r).mpr ⟨hc.1, hc.2.2, hc.2.1⟩
        rw [this] at hdd; cases hdd
      rw [dedupLoop, if_neg (by simp [hdd]), dedupSpec, if_neg hspec]
      simp only [List.map_cons, List.foldl_cons]
      rw [ih r _ _, if_lt_eq_min]

theorem dedupLoop_max (l : List AlertRecord) : ∀ (k : AlertRecord) (mn mx : Int),
    (dedupLoop k mn mx l).2.2 = ((dedupSpec k l).map (fun r => r.dt)).foldl max mx := by
  induction l with
  | nil => intro k mn mx; rfl
  | cons r rest ih =>
    intro k mn mx
    cases hdd : dedupDrop k r with
    | true =>
      have hspec : r.id = k.id ∧ 0 < r.dt - k.dt ∧ r.dt - k.dt ≤ 360 * 1000 := by
        have h := (dedupDrop_true_iff k r).mp hdd
        exact ⟨h.1, h.2.2, h.2.1⟩
      rw [dedupLoop, if_pos hdd, dedupSpec, if_pos hspec]
      exact ih k mn mx
    | false =>
      have hspec : ¬ (r.id = k.id ∧ 0 < r.dt - k.dt ∧ r.dt - k.dt ≤ 360 * 1000) := by
        intro hc
        have := (dedupDrop_true_iff k r).mpr ⟨hc.1, hc.2.2, hc.2.1⟩
        rw [this] at hdd; cases hdd
      rw [dedupLoop, if_neg (by simp [hdd]), dedupSpec, if_neg hspec]
      simp only [List.map_cons, List.foldl_cons]
      rw [ih r _ _, if_gt_eq_max]

theorem foldl_min_le_init (l : List Int) : ∀ (a : Int), l.foldl min a ≤ a := by
  induction l with
  | nil => intro a; simp
  | cons x xs ih =>
    intro a
    rw [List.foldl_cons]
    exact le_trans (ih (min a x)) (min_le_left a x)

theorem foldl_min_le_mem (l : List Int) : ∀ (a : Int), ∀ x ∈ l, l.foldl min a ≤ x := by
  induction l with
  | nil => intro a x hx; cases hx
  | cons y ys ih =>
    intro a x hx
    rw [List.foldl_cons]
    rcases List.mem_cons.mp hx with h | h
    · subst h
      exact le_trans (foldl_min_le_init ys (min a x)) (min_le_right a x)
    · exact ih (min a y) x h

theorem foldl_min_mem (l : List Int) : ∀ (a : Int), l.foldl min a = a ∨ l.foldl min a ∈ l := by
  induction l with
  | nil => intro a; left; rfl
  | cons y ys ih =>
    intro a
    rw [List.foldl_cons]
    rcases ih (min a y) with h | h
    · rw [h]
      rcases le_total a y with hy | hy
      · left; exact min_eq_left hy
      · right; rw [min_eq_right hy]; exact List.mem_cons_self y ys
    · right; exact List.mem_cons_of_mem y h

theorem foldl_max_ge_init (l : List Int) : ∀ (a : Int), a ≤ l.foldl max a := by
  induction l with
  | nil => intro a; simp
  | cons x xs ih =>
    intro a
    rw [List.foldl_cons]
    exact le_trans (le_max_left a x) (ih (max a x))

theorem foldl_max_ge_mem (l : List Int) : ∀ (a : Int), ∀ x ∈ l, x ≤ l.foldl max a := by
  induction l with
  | nil => intro a x hx; cases hx
  | cons y ys ih =>
    intro a x hx
    rw [List.foldl_cons]
    rcases List.mem_cons.mp hx with h | h
    · subst h
      exact le_trans (le_max_right a x) (foldl_max_ge_init ys (max a x))
    · exact ih (max a y) x h

theorem foldl_max_mem (l : List Int) : ∀ (a : Int), l.foldl max a = a ∨ l.foldl max a ∈ l := by
  induction l with
  | nil => intro a; left; rfl
  | cons y ys ih =>
    intro a
    rw [List.foldl_cons]
    rcases ih (max a y) with h | h
    · rw [h]
      rcases le_total y a with hy | hy
      · left; exact max_eq_left hy
      · right; rw [max_eq_right hy]; exact List.mem_cons_self y ys
    · right; exact List.mem_cons_of_mem y h

theorem dedupSpec_sublist (l : List AlertRecord) : ∀ (k : AlertRecord),
    (dedupSpec k l).Sublist l := by
  induction l with
  | nil => intro k; rw [dedupSpec]
  | cons r rest ih =>
    intro k
    rw [dedupSpec]
    split_ifs with h
    · exact (ih k).cons r
    · exact (ih r).cons₂ r

theorem pull_sense_file_pair (r r' : AlertRecord) (h1 : statusClean r = true)
    (h2 : statusClean r' = true) :
    pull_sense_file [r, r'] = Except.ok (r :: (dedupLoop r r.dt r.dt [r']).1,
      (dedupLoop r r.dt r.dt [r']).2.1, (dedupLoop r r.dt r.dt [r']).2.2) := by
  simp only [pull_sense_file, List.filter_cons, h1, h2, if_pos, List.filter_nil]

/-! ## C3: alert deduplication -/

/-- C3: deduplication processes the filtered alert list in arrival order
maintaining a last-kept alert `k`, dropping `a` exactly when `a.id = k.id` and
`0 < a.dt - k.dt ≤ 360` seconds (Policy A, `dedupSpec`); the output preserves
the original relative order of kept alerts (it is a sublist); the returned min
and max timestamps are attained bounds over the kept alerts only; two alerts
with identical id at `T` and `T + 300 s` collapse to the first alone, while
the same pair at `T` and `T + 400 s` are both kept. -/
theorem C3_dedup_policy (raw kept : List AlertRecord) (mn mx : Int)
    (h : pull_sense_file raw = Except.ok (kept, mn, mx)) :
    (∃ d0 rest, raw.filter statusClean = d0 :: rest ∧ kept = d0 :: dedupSpec d0 rest) ∧
    kept.Sublist (raw.filter statusClean) ∧
    (∀ r ∈ kept, mn ≤ r.dt ∧ r.dt ≤ mx) ∧
    (∃ r ∈ kept, r.dt = mn) ∧
    (∃ r ∈ kept, r.dt = mx) ∧
    (∀ r : AlertRecord, statusClean r = true →
      pull_sense_file [r, { r with dt := r.dt + 300 * 1000 }] = Except.ok ([r], r.dt, r.dt) ∧
      pull_sense_file [r, { r with dt := r.dt + 400 * 1000 }] =
        Except.ok ([r, { r with dt := r.dt + 400 * 1000 }], r.dt, r.dt + 400 * 1000)) := by
  have key : ∃ d0 rest, raw.filter statusClean = d0 :: rest ∧
      kept = d0 :: dedupSpec d0 rest ∧
      mn = ((dedupSpec d0 rest).map (fun r => r.dt)).foldl min d0.dt ∧
      mx = ((dedupSpec d0 rest).map (fun r => r.dt)).foldl max d0.dt := by
    cases hf : raw.filter statusClean with
    | nil =>
      simp only [pull_sense_file, hf] at h
      cases h
    | cons d0 rest =>
      simp only [pull_sense_file, hf, Except.ok.injEq, Prod.mk.injEq] at h
      refine ⟨d0, rest, rfl, ?_, ?_, ?_⟩
      · rw [← h.1, dedupLoop_fst]
      · rw [← h.2.1, dedupLoop_min]
      · rw [← h.2.2, dedupLoop_max]
  obtain ⟨d0, rest, hf, hkept, hmn, hmx⟩ := key
  refine ⟨⟨d0, rest, hf, hkept⟩, ?_, ?_, ?_, ?_, ?_⟩
  · rw [hf, hkept]
    exact (dedupSpec_sublist rest d0).cons₂ d0
  · intro r hr
    rw [hkept] at hr
    rcases List.mem_cons.mp hr with h0 | h0
    · subst h0
      constructor
      · rw [hmn]; exact foldl_min_le_init _ _
      · rw [hmx]; exact foldl_max_ge_init _ _
    · constructor
      · rw [hmn]
        exact foldl_min_le_mem _ _ r.dt (List.mem_map_of_mem _ h0)
      · rw [hmx]
        exact foldl_max_ge_mem _ _ r.dt (List.mem_map_of_mem _ h0)
  · rcases foldl_min_mem ((dedupSpec d0 rest).map (fun r => r.dt)) d0.dt with h0 | h0
    · exact ⟨d0, by rw [hkept]; exact List.mem_cons_self _ _, by rw [hmn, h0]⟩
    · obtain ⟨r, hr, hre⟩ := List.mem_map.mp h0
      exact ⟨r, by rw [hkept]; exact List.mem_cons_of_mem _ hr, by rw [hmn, hre]⟩
  · rcases foldl_max_mem ((dedupSpec d0 rest).map (fun r => r.dt)) d0.dt with h0 | h0
    · exact ⟨d0, by rw [hkept]; exact List.mem_cons_self _ _, by rw [hmx, h0]⟩
    · obtain ⟨r, hr, hre⟩ := List.mem_map.mp h0
      exact ⟨r, by rw [hkept]; exact List.mem_cons_of_mem _ hr, by rw [hmx, hre]⟩
  · intro r hr
    have hr3 : statusClean { r with dt := r.dt + 300 * 1000 } = true := hr
    have hr4 : statusClean { r with dt := r.dt + 400 * 1000 } = true := hr
    have hdrop3 : dedupDrop r { r with dt := r.dt + 300 * 1000 } = true := by
      rw [dedupDrop_true_iff]
      refine ⟨rfl, ?_, ?_⟩
      · show r.dt + 300 * 1000 - r.dt ≤ 360 * 1000
        omega
      · show r.dt + 300 * 1000 - r.dt > 0
        omega
    have hdrop4 : dedupDrop r { r with dt := r.dt + 400 * 1000 } = false := by
      rw [← Bool.not_eq_true, dedupDrop_true_iff]
      intro hc
      have h2 : r.dt + 400 * 1000 - r.dt ≤ 360 * 1000 := hc.2.1
      omega
    constructor
    · rw [pull_sense_file_pair r _ hr hr3]
      rw [show dedupLoop r r.dt r.dt [{ r with dt := r.dt + 300 * 1000 }] = ([], r.dt, r.dt) by
        rw [dedupLoop, if_pos hdrop3]; rfl]
    · rw [pull_sense_file_pair r _ hr hr4]
      rw [show dedupLoop r r.dt r.dt [{ r with dt := r.dt + 400 * 1000 }] =
          ([{ r with dt := r.dt + 400 * 1000 }], r.dt, r.dt + 400 * 1000) by
        rw [dedupLoop, if_neg (fun hc => Bool.false_ne_true (hdrop4 ▸ hc))]
        have hlt : ¬ ({ r with dt := r.dt + 400 * 1000 } : AlertRecord).dt < r.dt := by
          show ¬ r.dt + 400 * 1000 < r.dt
          omega
        have hgt : ({ r with dt := r.dt + 400 * 1000 } : AlertRecord).dt > r.dt := by
          show r.dt + 400 * 1000 > r.dt
          omega
        simp only [if_neg hlt, if_pos hgt, dedupLoop]]


/-- Witness for C3: of three alerts at 0 s, 100 s (same id) and 200 s (new id),
the middle one is dropped and the kept list is a sublist of the filtered input. -/
theorem C3_dedup_policy_witness :
    ([c3AlertW 0 "1", c3AlertW 200000 "2"] : List AlertRecord).Sublist
      ([c3AlertW 0 "1", c3AlertW 100000 "1", c3AlertW 200000 "2"].filter statusClean) :=
  (C3_dedup_policy [c3AlertW 0 "1", c3AlertW 100000 "1", c3AlertW 200000 "2"]
    [c3AlertW 0 "1", c3AlertW 200000 "2"] 0 200000 (by decide)).2.1

/-! ## C6: the explode step -/

/-- C6: for every maintenance record, the explode step produces one sibling per
non-overlapping 3-digit match found in its location string, identical to the
source record except for the elevator id set to that match; zero matches yield
zero output records (silent drop, not an error); and a record whose address is
`"Elevators 101 and 102"` yields exactly the two siblings with elevator ids
`"101"` and `"102"`, sharing all other fields and the same timestamp. -/
theorem C6_explode (r : CleanRecord) :
    get_elevator_records r =
      (findallD3 r.location.data).map (fun n => { r with elevator := n }) ∧
    (findallD3 r.location.data = [] → get_elevator_records r = []) ∧
    (∀ s ∈ get_elevator_records r, s.id = r.id ∧ s.location = r.location ∧
      s.zone = r.zone ∧ s.title = r.title ∧ s.dt = r.dt ∧ s.has_alert = r.has_alert ∧
      s.elevator ∈ findallD3 r.location.data) ∧
    (r.location = "Elevators 101 and 102" →
      get_elevator_records r =
        [{ r with elevator := "101" }, { r with elevator := "102" }]) := by
  refine ⟨rfl, ?_, ?_, ?_⟩
  · intro h
    rw [get_elevator_records, h]
    rfl
  · intro s hs
    rw [get_elevator_records] at hs
    obtain ⟨n, hn, hsn⟩ := List.mem_map.mp hs
    subst hsn
    exact ⟨rfl, rfl, rfl, rfl, rfl, rfl, hn⟩
  · intro h
    rw [get_elevator_records, h]
    rfl


/-- Witness for C6: the two-elevator address explodes into exactly two siblings. -/
theorem C6_explode_witness :
    get_elevator_records c6CleanW =
      [{ c6CleanW with elevator := "101" }, { c6CleanW with elevator := "102" }] :=
  (C6_explode c6CleanW).2.2.2 rfl

/-! ## Header resolution: C7 and C8 -/

theorem get_header_index_error (toFind values : List String)
    (h : ∃ x ∈ toFind, x ∉ values) :
    get_header_index toFind values =
      Except.error (toFind.filter (fun s => !(values.contains s))) ∧
    (∀ x ∈ toFind, x ∉ values → x ∈ toFind.filter (fun s => !(values.contains s))) ∧
    (∀ x ∈ toFind.filter (fun s => !(values.contains s)), x ∈ toFind ∧ x ∉ values) := by
  obtain ⟨x, hx, hnx⟩ := h
  have hmem : x ∈ toFind.filter (fun s => !(values.contains s)) := by
    rw [List.mem_filter]
    exact ⟨hx, by simp [List.elem_iff, hnx]⟩
  refine ⟨?_, ?_, ?_⟩
  · rw [get_header_index]
    rw [if_pos (List.length_pos.mpr (List.ne_nil_of_mem hmem))]
  · intro y hy hny
    rw [List.mem_filter]
    exact ⟨hy, by simp [List.elem_iff, hny]⟩
  · intro y hy
    rw [List.mem_filter] at hy
    refine ⟨hy.1, ?_⟩
    have := hy.2
    simp [List.elem_iff] at this
    exact this

theorem get_header_index_ok (toFind values : List String)
    (h : ∀ x ∈ toFind, x ∈ values) :
    get_header_index toFind values = Except.ok (toFind.filterMap (fun s =>
      (values.findIdx? (· == s)).map (fun i => (s, i)))) := by
  have hnil : toFind.filter (fun s => !(values.contains s)) = [] := by
    rw [List.filter_eq_nil_iff]
    intro x hx
    simp [List.elem_iff]
    exact h x hx
  rw [get_header_index, hnil]
  rfl

/-- C7 counterexample: the claim says a maintenance header containing only
`Title`, `Address`, `Created`, `Zone` (without the optional `#`) is still
accepted; the code instead rejects it, reporting `#` as missing. -/
theorem C7_counterexample :
    get_header_index required_clean_columns ["Title", "Address", "Created", "Zone"] =
      Except.error ["#"] := by decide

/-- C7 (amended): loading the maintenance dataset requires the five header
columns `#`, `Title`, `Address`, `Created`, `Zone`; a header row without `#`
is rejected with a missing-headers failure naming `#` (so its rows are never
constructed), while a header row containing all five is accepted. -/
theorem C7_hash_required (values : List String) :
    (("#" : String) ∈ required_clean_columns) ∧
    (("#" : String) ∉ values →
      ∃ miss, get_header_index required_clean_columns values = Except.error miss ∧
        "#" ∈ miss) ∧
    ((∀ c ∈ required_clean_columns, c ∈ values) →
      ∃ lk, get_header_index required_clean_columns values = Except.ok lk) := by
  refine ⟨by decide, ?_, ?_⟩
  · intro hnx
    have hex : ∃ x ∈ required_clean_columns, x ∉ values := ⟨"#", by decide, hnx⟩
    obtain ⟨he, hall, _⟩ := get_header_index_error required_clean_columns values hex
    exact ⟨_, he, hall "#" (by decide) hnx⟩
  · intro hall
    exact ⟨_, get_header_index_ok required_clean_columns values hall⟩

/-- Witness for C7 (amended): the four-column header row is rejected with a
missing-headers failure naming `#`; the five-column row is accepted. -/
theorem C7_hash_required_witness :
    (∃ miss, get_header_index required_clean_columns ["Title", "Address", "Created", "Zone"] =
      Except.error miss ∧ "#" ∈ miss) ∧
    (∃ lk, get_header_index required_clean_columns ["#", "Title", "Address", "Created", "Zone"] =
      Except.ok lk) :=
  ⟨(C7_hash_required ["Title", "Address", "Created", "Zone"]).2.1 (by decide),
   (C7_hash_required ["#", "Title", "Address", "Created", "Zone"]).2.2 (by decide)⟩

/-- C8: whenever one or more required header names are absent from the header
row, header resolution fails with a missing-headers error naming every missing
header (sound and complete over the required list), not just the first; a
maintenance header row lacking only `Zone` yields exactly `Zone`; and a failed
resolution yields no column lookup for the table, so no record is constructed
from it. -/
theorem C8_missing_headers (toFind values : List String)
    (h : ∃ x ∈ toFind, x ∉ values) :
    (∃ miss, get_header_index toFind values = Except.error miss ∧
      miss ≠ [] ∧
      (∀ x ∈ toFind, x ∉ values → x ∈ miss) ∧
      (∀ x ∈ miss, x ∈ toFind ∧ x ∉ values)) ∧
    get_header_index required_clean_columns ["#", "Title", "Address", "Created"] =
      Except.error ["Zone"] ∧
    (∀ (hdr : List String) (restRows : List (List String)),
      (∃ m, get_header_index toFind hdr = Except.error m) →
      check_data_headers_csv toFind (hdr :: restRows) = (false, none)) := by
  refine ⟨?_, by decide, ?_⟩
  · obtain ⟨he, hall, hsound⟩ := get_header_index_error toFind values h
    obtain ⟨x, hx, hnx⟩ := h
    exact ⟨_, he, List.ne_nil_of_mem (hall x hx hnx), hall, hsound⟩
  · intro hdr restRows ⟨m, hm⟩
    simp [check_data_headers_csv, hm]

/-- Witness for C8: a header row missing only `Zone` among the maintenance
columns produces a missing-headers error naming exactly `Zone`. -/
theorem C8_missing_headers_witness :
    ∃ miss, get_header_index required_clean_columns ["#", "Title", "Address", "Created"] =
      Except.error miss ∧ miss ≠ [] ∧
      (∀ x ∈ required_clean_columns, x ∉ ["#", "Title", "Address", "Created"] → x ∈ miss) ∧
      (∀ x ∈ miss, x ∈ required_clean_columns ∧ x ∉ ["#", "Title", "Address", "Created"]) :=
  (C8_missing_headers required_clean_columns ["#", "Title", "Address", "Created"]
    ⟨"Zone", by decide, by decide⟩).1

/-! ## C4: empty post-filter datasets -/


/-- C4 (code bug): on an alert file whose rows all fail the `"clean"` status
filter, `pull_sense_file` evaluates `data[0]` on the empty filtered list — an
unhandled IndexError that `main` propagates — instead of the graceful
NoRecordsFound halt with zero-count metrics that the claim describes.  The
maintenance-side half of the claim does hold: an empty post-filter maintenance
list makes the run return zero-count metrics. -/
theorem C4_empty_filter_crash :
    pull_sense_file [c4OpenAlert] = Except.error PullErr.indexError ∧
    mainRun [c4OpenAlert] [] = Except.error PullErr.indexError ∧
    mainRun [c3AlertW 0 "1"] [] = Except.ok ({} : Metric) := by
  refine ⟨by decide, by decide, by decide⟩

/-! ## Generic fold lemmas -/

theorem foldl_add_measure {σ α : Type} (μ : σ → Nat) (f : σ → α → σ) (g : α → Nat)
    (h : ∀ s x, μ (f s x) = μ s + g x) :
    ∀ (l : List α) (s : σ), μ (l.foldl f s) = μ s + (l.map g).sum := by
  intro l
  induction l with
  | nil => intro s; simp
  | cons x xs ih =>
    intro s
    rw [List.foldl_cons, ih, h]
    simp [List.map_cons, List.sum_cons]
    omega

theorem foldl_pres {σ α β : Type} (μ : σ → β) (f : σ → α → σ)
    (h : ∀ s x, μ (f s x) = μ s) :
    ∀ (l : List α) (s : σ), μ (l.foldl f s) = μ s := by
  intro l
  induction l with
  | nil => intro s; rfl
  | cons x xs ih =>
    intro s
    rw [List.foldl_cons, ih, h]

theorem foldl_invariant_mem {σ α : Type} (P : σ → Prop) (f : σ → α → σ) :
    ∀ (l : List α), (∀ s, ∀ x ∈ l, P s → P (f s x)) → ∀ s, P s → P (l.foldl f s) := by
  intro l
  induction l with
  | nil => intro _ s hs; exact hs
  | cons x xs ih =>
    intro h s hs
    rw [List.foldl_cons]
    exact ih (fun s' y hy => h s' y (List.mem_cons_of_mem x hy)) (f s x)
      (h s x (List.mem_cons_self x xs) hs)

theorem sum_map_one {α : Type} (l : List α) : (l.map (fun _ => (1 : Nat))).sum = l.length := by
  induction l with
  | nil => rfl
  | cons x xs ih => simp [ih, Nat.add_comm]

theorem foldl_flatMap {σ α β : Type} (f : σ → β → σ) (g : α → List β) :
    ∀ (l : List α) (s : σ),
      (l.flatMap g).foldl f s = l.foldl (fun s x => (g x).foldl f s) s := by
  intro l
  induction l with
  | nil => intro s; rfl
  | cons x xs ih => intro s; simp [List.flatMap_cons, List.foldl_append, ih]

theorem filter_flatMap {α β : Type} (g : α → List β) (p : β → Bool) :
    ∀ (l : List α), (l.flatMap g).filter p = l.flatMap (fun x => (g x).filter p) := by
  intro l
  induction l with
  | nil => rfl
  | cons x xs ih => simp [List.flatMap_cons, List.filter_append, ih]

/-! ## Lemmas about the bucket dictionaries -/

theorem bucketRecords_cons {R : Type} (eb : String × List R) (rest : Bucket R) :
    bucketRecords (eb :: rest) = eb.2 ++ bucketRecords rest := by
  rw [bucketRecords, bucketRecords, List.flatMap_cons]

theorem dictRecords_cons {R : Type} (zb : String × Bucket R) (rest : Dict R) :
    dictRecords (zb :: rest) = bucketRecords zb.2 ++ dictRecords rest := by
  rw [dictRecords, dictRecords, List.flatMap_cons]

theorem bucketFind_decomp {R : Type} (e : String) (lst : List R) :
    ∀ (b : Bucket R), bucketFind b e = some lst →
      ∃ pre suf, bucketRecords b = pre ++ (lst ++ suf) ∧
        ∀ l', bucketRecords (bucketUpdate b e l') = pre ++ (l' ++ suf) := by
  intro b
  induction b with
  | nil => intro h; cases h
  | cons eb rest ih =>
    intro h
    rw [bucketFind] at h
    by_cases he : eb.1 = e
    · rw [if_pos he] at h
      injection h with h
      refine ⟨[], bucketRecords rest, ?_, ?_⟩
      · rw [bucketRecords_cons, h, List.nil_append]
      · intro l'
        rw [bucketUpdate, if_pos he, bucketRecords_cons, List.nil_append]
    · rw [if_neg he] at h
      obtain ⟨pre, suf, h1, h2⟩ := ih h
      refine ⟨eb.2 ++ pre, suf, ?_, ?_⟩
      · rw [bucketRecords_cons, h1, List.append_assoc]
      · intro l'
        rw [bucketUpdate, if_neg he, bucketRecords_cons, h2 l', List.append_assoc]

theorem dictFind_decomp {R : Type} (z e : String) (lst : List R) :
    ∀ (d : Dict R), dictFind d z e = some lst →
      ∃ pre suf, dictRecords d = pre ++ (lst ++ suf) ∧
        ∀ l', dictRecords (dictUpdate d z e l') = pre ++ (l' ++ suf) := by
  intro d
  induction d with
  | nil => intro h; cases h
  | cons zb rest ih =>
    intro h
    rw [dictFind] at h
    by_cases hz : zb.1 = z
    · rw [if_pos hz] at h
      obtain ⟨pre, suf, h1, h2⟩ := bucketFind_decomp e lst zb.2 h
      refine ⟨pre, suf ++ dictRecords rest, ?_, ?_⟩
      · rw [dictRecords_cons, h1]
        simp [List.append_assoc]
      · intro l'
        rw [dictUpdate, if_pos hz, dictRecords_cons, h2 l']
        simp [List.append_assoc]
    · rw [if_neg hz] at h
      obtain ⟨pre, suf, h1, h2⟩ := ih h
      refine ⟨bucketRecords zb.2 ++ pre, suf, ?_, ?_⟩
      · rw [dictRecords_cons, h1, List.append_assoc]
      · intro l'
        rw [dictUpdate, if_neg hz, dictRecords_cons, h2 l', List.append_assoc]

/-! ## Invariants of the alert pass -/

theorem processAlert_none (st : Metric × Dict CleanRecord) (a : AlertRecord)
    (hf : dictFind st.2 a.zone a.elevator = none) :
    processAlert st a = ({ st.1 with false_positive := st.1.false_positive ++ [a] }, st.2) := by
  rw [processAlert, hf]

theorem processAlert_some (st : Metric × Dict CleanRecord) (a : AlertRecord)
    (lst : List CleanRecord) (hf : dictFind st.2 a.zone a.elevator = some lst) :
    processAlert st a =
      ({ st.1 with
          true_positive := st.1.true_positive ++ (scanClean a false lst).2.2,
          false_positive := if (scanClean a false lst).2.1 then st.1.false_positive
                            else st.1.false_positive ++ [a] },
       dictUpdate st.2 a.zone a.elevator (scanClean a false lst).1) := by
  rw [processAlert, hf]

theorem processAlert_count (st : Metric × Dict CleanRecord) (a : AlertRecord) :
    (processAlert st a).1.true_positive.length + (processAlert st a).1.false_positive.length
      = st.1.true_positive.length + st.1.false_positive.length + 1 := by
  cases hf : dictFind st.2 a.zone a.elevator with
  | none =>
    rw [processAlert_none st a hf]
    simp
    omega
  | some lst =>
    rw [processAlert_some st a lst hf]
    have hp := scanClean_pairs_length a lst
    cases hflag : (scanClean a false lst).2.1 with
    | true =>
      rw [hflag] at hp
      simp [hp, hflag]
      omega
    | false =>
      rw [hflag] at hp
      simp [hp, hflag]
      omega

theorem processAlert_clean (st : Metric × Dict CleanRecord) (a : AlertRecord) :
    (dictRecords (processAlert st a).2).map clearFlag = (dictRecords st.2).map clearFlag := by
  cases hf : dictFind st.2 a.zone a.elevator with
  | none => rw [processAlert_none st a hf]
  | some lst =>
    rw [processAlert_some st a lst hf]
    obtain ⟨pre, suf, h1, h2⟩ := dictFind_decomp a.zone a.elevator lst st.2 hf
    show (dictRecords (dictUpdate st.2 a.zone a.elevator (scanClean a false lst).1)).map clearFlag
      = (dictRecords st.2).map clearFlag
    rw [h2 (scanClean a false lst).1, h1]
    simp only [List.map_append]
    rw [scanClean_map_clearFlag]

theorem processAlert_fn (st : Metric × Dict CleanRecord) (a : AlertRecord) :
    (processAlert st a).1.false_negative = st.1.false_negative := by
  cases hf : dictFind st.2 a.zone a.elevator with
  | none => rw [processAlert_none st a hf]
  | some lst => rw [processAlert_some st a lst hf]

theorem processAlert_metric_mem (st : Metric × Dict CleanRecord) (a : AlertRecord)
    (W : AlertRecord → Prop) (hW : W a)
    (hst : (∀ p ∈ st.1.true_positive, W p.1) ∧ (∀ x ∈ st.1.false_positive, W x)) :
    (∀ p ∈ (processAlert st a).1.true_positive, W p.1) ∧
    (∀ x ∈ (processAlert st a).1.false_positive, W x) := by
  cases hf : dictFind st.2 a.zone a.elevator with
  | none =>
    rw [processAlert_none st a hf]
    refine ⟨hst.1, ?_⟩
    intro x hx
    rcases List.mem_append.mp hx with hx | hx
    · exact hst.2 x hx
    · rw [List.mem_singleton.mp hx]; exact hW
  | some lst =>
    rw [processAlert_some st a lst hf]
    constructor
    · intro p hp
      rcases List.mem_append.mp hp with hp | hp
      · exact hst.1 p hp
      · rw [scanClean_pairs_fst a false lst p hp]; exact hW
    · intro x hx
      cases hflag : (scanClean a false lst).2.1 with
      | true =>
        rw [hflag, if_pos rfl] at hx
        exact hst.2 x hx
      | false =>
        rw [hflag] at hx
        simp only [Bool.false_eq_true, if_false] at hx
        rcases List.mem_append.mp hx with hx | hx
        · exact hst.2 x hx
        · rw [List.mem_singleton.mp hx]; exact hW

theorem processZone_eq (st : Metric × Dict CleanRecord) (zb : String × Bucket AlertRecord) :
    processZone st zb = (bucketRecords zb.2).foldl processAlert st := by
  rw [processZone, bucketRecords, foldl_flatMap]
  rfl

theorem correlate_eq_foldl (sd : Dict AlertRecord) (st : Metric × Dict CleanRecord) :
    correlate sd st = (dictRecords sd).foldl processAlert st := by
  rw [correlate, dictRecords, foldl_flatMap]
  have he : (fun (s : Metric × Dict CleanRecord) (zb : String × Bucket AlertRecord) =>
      (bucketRecords zb.2).foldl processAlert s) = processZone := by
    funext s zb
    rw [processZone_eq]
  rw [he]

theorem correlate_count (sd : Dict AlertRecord) (st : Metric × Dict CleanRecord) :
    (correlate sd st).1.true_positive.length + (correlate sd st).1.false_positive.length
      = st.1.true_positive.length + st.1.false_positive.length + (dictRecords sd).length := by
  rw [correlate_eq_foldl]
  have h := foldl_add_measure
    (fun st : Metric × Dict CleanRecord => st.1.true_positive.length + st.1.false_positive.length)
    processAlert (fun _ => 1) processAlert_count (dictRecords sd) st
  rw [h, sum_map_one]

theorem correlate_clean (sd : Dict AlertRecord) (st : Metric × Dict CleanRecord) :
    (dictRecords (correlate sd st).2).map clearFlag = (dictRecords st.2).map clearFlag := by
  rw [correlate_eq_foldl]
  exact foldl_pres (fun st : Metric × Dict CleanRecord => (dictRecords st.2).map clearFlag)
    processAlert processAlert_clean (dictRecords sd) st

theorem correlate_fn (sd : Dict AlertRecord) (st : Metric × Dict CleanRecord) :
    (correlate sd st).1.false_negative = st.1.false_negative := by
  rw [correlate_eq_foldl]
  exact foldl_pres (fun st : Metric × Dict CleanRecord => st.1.false_negative)
    processAlert processAlert_fn (dictRecords sd) st

theorem correlate_metric_mem (sd : Dict AlertRecord) (st : Metric × Dict CleanRecord)
    (W : AlertRecord → Prop) (hW : ∀ a ∈ dictRecords sd, W a)
    (hst : (∀ p ∈ st.1.true_positive, W p.1) ∧ (∀ x ∈ st.1.false_positive, W x)) :
    (∀ p ∈ (correlate sd st).1.true_positive, W p.1) ∧
    (∀ x ∈ (correlate sd st).1.false_positive, W x) := by
  rw [correlate_eq_foldl]
  exact foldl_invariant_mem
    (fun st : Metric × Dict CleanRecord =>
      (∀ p ∈ st.1.true_positive, W p.1) ∧ (∀ x ∈ st.1.false_positive, W x))
    processAlert (dictRecords sd)
    (fun s x hx hs => processAlert_metric_mem s x W (hW x hx) hs) st hst

/-! ## Lemmas about bucketization -/

theorem bucketRecords_addToBucket_length {R : Type} (e : String) (r : R) :
    ∀ (b : Bucket R),
      (bucketRecords (addToBucket b e r)).length = (bucketRecords b).length + 1 := by
  intro b
  induction b with
  | nil => rfl
  | cons eb rest ih =>
    rw [addToBucket]
    by_cases he : eb.1 = e
    · rw [if_pos he, bucketRecords_cons, bucketRecords_cons]
      simp [List.length_append]
      omega
    · rw [if_neg he, bucketRecords_cons, bucketRecords_cons]
      simp [List.length_append, ih]
      omega

theorem mem_bucketRecords_addToBucket {R : Type} (e : String) (r x : R) :
    ∀ (b : Bucket R),
      x ∈ bucketRecords (addToBucket b e r) ↔ x ∈ bucketRecords b ∨ x = r := by
  intro b
  induction b with
  | nil =>
    show x ∈ bucketRecords [(e, [r])] ↔ x ∈ bucketRecords ([] : Bucket R) ∨ x = r
    rw [bucketRecords_cons]
    simp [bucketRecords]
  | cons eb rest ih =>
    rw [addToBucket]
    by_cases he : eb.1 = e
    · rw [if_pos he, bucketRecords_cons, bucketRecords_cons]
      simp [List.mem_append]
      tauto
    · rw [if_neg he, bucketRecords_cons, bucketRecords_cons]
      simp [List.mem_append, ih]
      tauto

theorem dictRecords_addToDict_length {R : Type} (z e : String) (r : R) :
    ∀ (d : Dict R),
      (dictRecords (addToDict d z e r)).length = (dictRecords d).length + 1 := by
  intro d
  induction d with
  | nil => rfl
  | cons zb rest ih =>
    rw [addToDict]
    by_cases hz : zb.1 = z
    · rw [if_pos hz, dictRecords_cons, dictRecords_cons]
      simp [List.length_append, bucketRecords_addToBucket_length]
      omega
    · rw [if_neg hz, dictRecords_cons, dictRecords_cons]
      simp [List.length_append, ih]
      omega

theorem mem_dictRecords_addToDict {R : Type} (z e : String) (r x : R) :
    ∀ (d : Dict R),
      x ∈ dictRecords (addToDict d z e r) ↔ x ∈ dictRecords d ∨ x = r := by
  intro d
  induction d with
  | nil =>
    show x ∈ dictRecords [(z, [(e, [r])])] ↔ x ∈ dictRecords ([] : Dict R) ∨ x = r
    rw [dictRecords_cons, bucketRecords_cons]
    simp [dictRecords, bucketRecords]
  | cons zb rest ih =>
    rw [addToDict]
    by_cases hz : zb.1 = z
    · rw [if_pos hz, dictRecords_cons, dictRecords_cons]
      simp [List.mem_append, mem_bucketRecords_addToBucket]
      tauto
    · rw [if_neg hz, dictRecords_cons, dictRecords_cons]
      simp [List.mem_append, ih]
      tauto

theorem length_insertByDt {R : Type} (dtOf : R → Int) (a : R) :
    ∀ (l : List R), (insertByDt dtOf a l).length = l.length + 1 := by
  intro l
  induction l with
  | nil => rfl
  | cons b rest ih =>
    rw [insertByDt]
    split_ifs
    · simp
    · simp [ih]

theorem length_sortByDt {R : Type} (dtOf : R → Int) :
    ∀ (l : List R), (sortByDt dtOf l).length = l.length := by
  intro l
  induction l with
  | nil => rfl
  | cons a rest ih =>
    show (insertByDt dtOf a (sortByDt dtOf rest)).length = rest.length + 1
    rw [length_insertByDt, ih]

theorem mem_insertByDt {R : Type} (dtOf : R → Int) (a x : R) :
    ∀ (l : List R), x ∈ insertByDt dtOf a l ↔ x = a ∨ x ∈ l := by
  intro l
  induction l with
  | nil => simp [insertByDt]
  | cons b rest ih =>
    rw [insertByDt]
    split_ifs
    · simp
    · simp [ih]
      tauto

theorem mem_sortByDt {R : Type} (dtOf : R → Int) (x : R) :
    ∀ (l : List R), x ∈ sortByDt dtOf l ↔ x ∈ l := by
  intro l
  induction l with
  | nil => simp [sortByDt]
  | cons a rest ih =>
    show x ∈ insertByDt dtOf a (sortByDt dtOf rest) ↔ _
    rw [mem_insertByDt, ih]
    simp

theorem bucketRecords_sortBucket_length {R : Type} (dtOf : R → Int) :
    ∀ (b : Bucket R),
      (bucketRecords (b.map (fun eb => (eb.1, sortByDt dtOf eb.2)))).length
        = (bucketRecords b).length := by
  intro b
  induction b with
  | nil => rfl
  | cons eb rest ih =>
    rw [List.map_cons, bucketRecords_cons, bucketRecords_cons]
    simp [List.length_append, length_sortByDt, ih]

theorem mem_bucketRecords_sortBucket {R : Type} (dtOf : R → Int) (x : R) :
    ∀ (b : Bucket R),
      x ∈ bucketRecords (b.map (fun eb => (eb.1, sortByDt dtOf eb.2)))
        ↔ x ∈ bucketRecords b := by
  intro b
  induction b with
  | nil => simp
  | cons eb rest ih =>
    rw [List.map_cons, bucketRecords_cons, bucketRecords_cons]
    simp [List.mem_append, mem_sortByDt, ih]

theorem dictRecords_sortInnermost_length {R : Type} (dtOf : R → Int) :
    ∀ (d : Dict R),
      (dictRecords (sortInnermost dtOf d)).length = (dictRecords d).length := by
  intro d
  induction d with
  | nil => rfl
  | cons zb rest ih =>
    rw [sortInnermost, List.map_cons, dictRecords_cons, dictRecords_cons]
    simp only [List.length_append]
    rw [bucketRecords_sortBucket_length]
    exact congrArg _ ih

theorem mem_dictRecords_sortInnermost {R : Type} (dtOf : R → Int) (x : R) :
    ∀ (d : Dict R),
      x ∈ dictRecords (sortInnermost dtOf d) ↔ x ∈ dictRecords d := by
  intro d
  induction d with
  | nil => simp [sortInnermost]
  | cons zb rest ih =>
    rw [sortInnermost, List.map_cons, dictRecords_cons, dictRecords_cons]
    rw [List.mem_append, List.mem_append, mem_bucketRecords_sortBucket]
    rw [show dictRecords (List.map (fun zb => (zb.1, List.map
      (fun eb => (eb.1, sortByDt dtOf eb.2)) zb.2)) rest) = dictRecords (sortInnermost dtOf rest)
      from rfl]
    rw [ih]

theorem build_length {R : Type} (dtOf : R → Int) (zOf eOf : R → String) (mn mx : Int) :
    ∀ (l : List R) (acc : Dict R),
      (dictRecords (l.foldl (bucketizeStep dtOf zOf eOf mn mx) acc)).length
        = (dictRecords acc).length + (l.filter (keepRecord dtOf mn mx)).length := by
  intro l
  induction l with
  | nil => intro acc; simp
  | cons r rest ih =>
    intro acc
    rw [List.foldl_cons, List.filter_cons]
    by_cases h : dtOf r < mn ∨ dtOf r > mx
    · have hk : keepRecord dtOf mn mx r = false := by
        unfold keepRecord
        rcases h with h | h <;> simp [h]
      rw [hk, bucketizeStep, if_pos h]
      simp only [Bool.false_eq_true, if_false]
      exact ih acc
    · have hk : keepRecord dtOf mn mx r = true := by
        unfold keepRecord
        push_neg at h
        simp [h.1, h.2]
      rw [hk, bucketizeStep, if_neg h]
      simp only [if_pos]
      rw [ih, dictRecords_addToDict_length]
      simp [List.length_cons]
      omega

theorem build_mem {R : Type} (dtOf : R → Int) (zOf eOf : R → String) (mn mx : Int) :
    ∀ (l : List R) (acc : Dict R) (x : R),
      x ∈ dictRecords (l.foldl (bucketizeStep dtOf zOf eOf mn mx) acc) →
        x ∈ dictRecords acc ∨ (x ∈ l ∧ keepRecord dtOf mn mx x = true) := by
  intro l
  induction l with
  | nil => intro acc x hx; exact Or.inl hx
  | cons r rest ih =>
    intro acc x hx
    rw [List.foldl_cons] at hx
    rcases ih (bucketizeStep dtOf zOf eOf mn mx acc r) x hx with h1 | h1
    · by_cases h : dtOf r < mn ∨ dtOf r > mx
      · rw [bucketizeStep, if_pos h] at h1
        exact Or.inl h1
      · rw [bucketizeStep, if_neg h] at h1
        rcases (mem_dictRecords_addToDict (zOf r) (eOf r) r x acc).mp h1 with h2 | h2
        · exact Or.inl h2
        · subst h2
          refine Or.inr ⟨List.mem_cons_self x rest, ?_⟩
          unfold keepRecord
          push_neg at h
          simp [h.1, h.2]
    · exact Or.inr ⟨List.mem_cons_of_mem r h1.1, h1.2⟩

theorem list_to_dict_length {R : Type} (dtOf : R → Int) (zOf eOf : R → String)
    (l : List R) (mn mx : Int) :
    (dictRecords (list_to_dict dtOf zOf eOf l mn mx)).length
      = (l.filter (keepRecord dtOf mn mx)).length := by
  rw [list_to_dict, dictRecords_sortInnermost_length, build_length]
  simp [dictRecords]

theorem mem_list_to_dict {R : Type} (dtOf : R → Int) (zOf eOf : R → String)
    (l : List R) (mn mx : Int) (x : R)
    (hx : x ∈ dictRecords (list_to_dict dtOf zOf eOf l mn mx)) :
    x ∈ l ∧ keepRecord dtOf mn mx x = true := by
  rw [list_to_dict, mem_dictRecords_sortInnermost] at hx
  rcases build_mem dtOf zOf eOf mn mx l [] x hx with h | h
  · cases h
  · exact h

theorem list_to_dict_of_empty_window {R : Type} (dtOf : R → Int) (zOf eOf : R → String)
    (l : List R) (mn mx : Int) (h : mn > mx) :
    list_to_dict dtOf zOf eOf l mn mx = [] := by
  rw [list_to_dict]
  have hstep : ∀ (acc : Dict R) (r : R), bucketizeStep dtOf zOf eOf mn mx acc r = acc := by
    intro acc r
    rw [bucketizeStep, if_pos]
    rcases lt_or_le (dtOf r) mn with h1 | h1
    · exact Or.inl h1
    · exact Or.inr (by omega)
  rw [foldl_pres (fun acc : Dict R => acc) (bucketizeStep dtOf zOf eOf mn mx) hstep l []]
  rfl

/-! ## The correlation core -/

theorem correlateAndSweep_tp (sd : Dict AlertRecord) (cd : Dict CleanRecord) :
    (correlateAndSweep sd cd).1.true_positive
      = (correlate sd (({} : Metric), cd)).1.true_positive := rfl

theorem correlateAndSweep_fp (sd : Dict AlertRecord) (cd : Dict CleanRecord) :
    (correlateAndSweep sd cd).1.false_positive
      = (correlate sd (({} : Metric), cd)).1.false_positive := rfl

theorem correlateAndSweep_cd (sd : Dict AlertRecord) (cd : Dict CleanRecord) :
    (correlateAndSweep sd cd).2 = (correlate sd (({} : Metric), cd)).2 := rfl

theorem sweepFN_eq (cd : Dict CleanRecord) :
    sweepFN cd = (dictRecords cd).filter (fun r => r.has_alert == false) := by
  rw [sweepFN, dictRecords, filter_flatMap]
  congr 1
  funext zb
  rw [bucketRecords, filter_flatMap]

theorem correlateAndSweep_fn (sd : Dict AlertRecord) (cd : Dict CleanRecord) :
    (correlateAndSweep sd cd).1.false_negative = sweepFN (correlateAndSweep sd cd).2 := by
  show (correlate sd (({} : Metric), cd)).1.false_negative
      ++ sweepFN (correlate sd (({} : Metric), cd)).2
    = sweepFN (correlate sd (({} : Metric), cd)).2
  rw [correlate_fn]
  rfl

theorem correlateAndSweep_count (sd : Dict AlertRecord) (cd : Dict CleanRecord) :
    (correlateAndSweep sd cd).1.true_positive.length
      + (correlateAndSweep sd cd).1.false_positive.length = (dictRecords sd).length := by
  rw [correlateAndSweep_tp, correlateAndSweep_fp]
  have h := correlate_count sd (({} : Metric), cd)
  simpa using h

theorem correlateAndSweep_clean_map (sd : Dict AlertRecord) (cd : Dict CleanRecord) :
    (dictRecords (correlateAndSweep sd cd).2).map clearFlag
      = (dictRecords cd).map clearFlag := by
  rw [correlateAndSweep_cd]
  have h := correlate_clean sd (({} : Metric), cd)
  simpa using h

theorem correlateAndSweep_clean_length (sd : Dict AlertRecord) (cd : Dict CleanRecord) :
    (dictRecords (correlateAndSweep sd cd).2).length = (dictRecords cd).length := by
  have h := congrArg List.length (correlateAndSweep_clean_map sd cd)
  simpa using h

theorem length_partition_flag (l : List CleanRecord) :
    l.length = l.countP (fun r => r.has_alert)
      + (l.filter (fun r => r.has_alert == false)).length := by
  induction l with
  | nil => rfl
  | cons c rest ih =>
    rw [List.countP_cons, List.filter_cons]
    cases hc : c.has_alert <;> simp [hc, ih] <;> omega

theorem runCore_eq (sense_data : List AlertRecord) (sMin sMax : Int)
    (clean_data : List CleanRecord) (cMin cMax : Int) :
    runCore sense_data sMin sMax clean_data cMin cMax =
      correlateAndSweep
        (list_to_dict (fun r => r.dt) (fun r => r.zone) (fun r => r.elevator)
          sense_data (windowMin sMin cMin) (windowMax sMax cMax))
        (list_to_dict (fun r => r.dt) (fun r => r.zone) (fun r => r.elevator)
          clean_data (windowMin sMin cMin) (windowMax sMax cMax)) := rfl

/-! ## C2: the partition property -/




/-- C2 counterexample: with two deduplicated alerts at 0 s and 100000 s and one
maintenance record at 100000 s, the overlap window starts at 100000 s - 1 h, so
the first alert is dropped during bucketization: the pipeline produces
`|matched| + |false positives| = 1` while the deduplicated alert list has 2
elements, refuting the claimed equality. -/
theorem C2_partition_counterexample :
    (mainRun [c2Alert1, c2Alert2] [c2Clean1]).map
        (fun m => m.true_positive.length + m.false_positive.length)
      ≠ (pull_sense_file [c2Alert1, c2Alert2]).map (fun t => t.1.length) := by decide

/-- C2 (amended): `|matched pairs| + |false positives|` equals the number of
deduplicated alerts whose timestamps lie within the padded overlap window
`[windowMin, windowMax]` (not the full deduplicated count), and every
maintenance record within the window — exactly those held in the final
maintenance dictionary — is classified in exactly one of the two outcomes
matched (`has_alert`) or false negative. -/
theorem C2_partition_amended (sense_data : List AlertRecord) (clean_data : List CleanRecord)
    (sMin sMax cMin cMax : Int) :
    (runCore sense_data sMin sMax clean_data cMin cMax).1.true_positive.length
      + (runCore sense_data sMin sMax clean_data cMin cMax).1.false_positive.length
      = (sense_data.filter
          (keepRecord (fun r => r.dt) (windowMin sMin cMin) (windowMax sMax cMax))).length ∧
    (runCore sense_data sMin sMax clean_data cMin cMax).1.false_negative
      = (dictRecords (runCore sense_data sMin sMax clean_data cMin cMax).2).filter
          (fun r => r.has_alert == false) ∧
    (dictRecords (runCore sense_data sMin sMax clean_data cMin cMax).2).length
      = (clean_data.filter
          (keepRecord (fun r => r.dt) (windowMin sMin cMin) (windowMax sMax cMax))).length ∧
    (dictRecords (runCore sense_data sMin sMax clean_data cMin cMax).2).length
      = (dictRecords (runCore sense_data sMin sMax clean_data cMin cMax).2).countP
          (fun r => r.has_alert)
        + (runCore sense_data sMin sMax clean_data cMin cMax).1.false_negative.length := by
  rw [runCore_eq]
  refine ⟨?_, ?_, ?_, ?_⟩
  · rw [correlateAndSweep_count, list_to_dict_length]
  · rw [correlateAndSweep_fn, sweepFN_eq]
  · rw [correlateAndSweep_clean_length, list_to_dict_length]
  · rw [correlateAndSweep_fn, sweepFN_eq]
    exact length_partition_flag _

/-! ## C5: the overlap window -/

/-- C5: the analysis window is `windowMin = max(alertMin, cleaningMin) - 3600 s`
and `windowMax = min(alertMax, cleaningMax) + 3600 s`; whenever
`windowMin > windowMax` (temporally disjoint datasets) the pipeline produces a
valid empty result — zero matched pairs, zero false positives, zero false
negatives — and `export_metrics` skips the export instead of raising. -/
theorem C5_empty_overlap (sense_data : List AlertRecord) (clean_data : List CleanRecord)
    (sMin sMax cMin cMax : Int)
    (h : windowMin sMin cMin > windowMax sMax cMax) :
    (runCore sense_data sMin sMax clean_data cMin cMax).1 = ({} : Metric) ∧
    export_metrics (runCore sense_data sMin sMax clean_data cMin cMax).1 = false ∧
    windowMin sMin cMin = max sMin cMin - 60 * 60 * 1000 ∧
    windowMax sMax cMax = min sMax cMax + 60 * 60 * 1000 := by
  have h1 : runCore sense_data sMin sMax clean_data cMin cMax = (({} : Metric), []) := by
    rw [runCore_eq,
      list_to_dict_of_empty_window _ _ _ sense_data _ _ h,
      list_to_dict_of_empty_window _ _ _ clean_data _ _ h]
    rfl
  rw [h1]
  exact ⟨rfl, rfl, rfl, rfl⟩

/-- Witness for C5: an alert dataset spanning the first day and a maintenance
dataset months later give disjoint windows, zero-count metrics and no export. -/
theorem C5_empty_overlap_witness :
    (runCore [c3AlertW 0 "1"] 0 86400000 [c6CleanW] 13132800000000 13132886400000).1
      = ({} : Metric) ∧
    export_metrics
      (runCore [c3AlertW 0 "1"] 0 86400000 [c6CleanW] 13132800000000 13132886400000).1
      = false :=
  ⟨(C5_empty_overlap [c3AlertW 0 "1"] [c6CleanW] 0 86400000 13132800000000 13132886400000
      (by decide)).1,
   (C5_empty_overlap [c3AlertW 0 "1"] [c6CleanW] 0 86400000 13132800000000 13132886400000
      (by decide)).2.1⟩

/-! ## C10: alerts outside the window -/

/-- C10: every deduplicated alert whose timestamp lies strictly outside the
padded overlap window `[windowMin, windowMax]` is dropped during bucketization
(it is absent from the sensor dictionary) and appears in none of the result
collections: it is the alert of no matched pair and is not a false positive. -/
theorem C10_outside_window (sense_data : List AlertRecord) (clean_data : List CleanRecord)
    (sMin sMax cMin cMax : Int) (a : AlertRecord)
    (h : a.dt < windowMin sMin cMin ∨ a.dt > windowMax sMax cMax) :
    a ∉ dictRecords (list_to_dict (fun r => r.dt) (fun r => r.zone) (fun r => r.elevator)
        sense_data (windowMin sMin cMin) (windowMax sMax cMax)) ∧
    (∀ p ∈ (runCore sense_data sMin sMax clean_data cMin cMax).1.true_positive, p.1 ≠ a) ∧
    a ∉ (runCore sense_data sMin sMax clean_data cMin cMax).1.false_positive := by
  have hW : ∀ x ∈ dictRecords (list_to_dict (fun r => r.dt) (fun r => r.zone)
      (fun r => r.elevator) sense_data (windowMin sMin cMin) (windowMax sMax cMax)),
      ¬(x.dt < windowMin sMin cMin) ∧ ¬(x.dt > windowMax sMax cMax) := by
    intro x hx
    have h2 := (mem_list_to_dict _ _ _ _ _ _ x hx).2
    unfold keepRecord at h2
    simp at h2
    exact ⟨not_lt.mpr h2.1, not_lt.mpr h2.2⟩
  have hmem := correlate_metric_mem
    (list_to_dict (fun r => r.dt) (fun r => r.zone) (fun r => r.elevator)
      sense_data (windowMin sMin cMin) (windowMax sMax cMax))
    (({} : Metric),
      list_to_dict (fun r => r.dt) (fun r => r.zone) (fun r => r.elevator)
        clean_data (windowMin sMin cMin) (windowMax sMax cMax))
    (fun x => ¬(x.dt < windowMin sMin cMin) ∧ ¬(x.dt > windowMax sMax cMax)) hW
    ⟨fun p hp => absurd hp (List.not_mem_nil p), fun x hx => absurd hx (List.not_mem_nil x)⟩
  refine ⟨?_, ?_, ?_⟩
  · intro hx
    have hx2 := hW a hx
    rcases h with h | h
    · exact hx2.1 h
    · exact hx2.2 h
  · intro p hp hpa
    rw [runCore_eq, correlateAndSweep_tp] at hp
    have hx2 := hmem.1 p hp
    rw [hpa] at hx2
    rcases h with h | h
    · exact hx2.1 h
    · exact hx2.2 h
  · intro hx
    rw [runCore_eq, correlateAndSweep_fp] at hx
    have hx2 := hmem.2 a hx
    rcases h with h | h
    · exact hx2.1 h
    · exact hx2.2 h

/-- Witness for C10: with the maintenance dataset months after the single
alert, that alert is before the window and is classified nowhere. -/
theorem C10_outside_window_witness :
    c3AlertW 0 "1" ∉
      (runCore [c3AlertW 0 "1"] 0 0 [c6CleanW] 13132800000000 13132800000000).1.false_positive :=
  (C10_outside_window [c3AlertW 0 "1"] [c6CleanW] 0 0 13132800000000 13132800000000
    (c3AlertW 0 "1") (by decide)).2.2

/-! ## C9: the sensor-location pre-filter -/

/-- C9: every exploded maintenance record whose (zone, elevator) key does not
occur among the deduplicated alert locations is discarded by
`pull_clean_report_file` before the maintenance min/max timestamps are computed
and before bucketization: appending such a record to the input changes nothing
in the function's output (list, min and max alike), every record it returns
carries a key from the sensor locations, and consequently every false negative
reported by the core carries a sensor-location key — a maintenance record for
a (zone, elevator) with no alerts is never counted as a false negative and
never influences the overlap window. -/
theorem C9_location_filter (locs : List (String × String)) (data : List CleanRecord)
    (r : CleanRecord)
    (hr : ∀ s ∈ get_elevator_records r, (s.zone, s.elevator) ∉ locs) :
    pull_clean_report_file locs (data ++ [r]) = pull_clean_report_file locs data ∧
    (∀ s ∈ (pull_clean_report_file locs data).1, (s.zone, s.elevator) ∈ locs) ∧
    (∀ (sense_data : List AlertRecord) (sMin sMax cMin cMax : Int),
      ∀ fnr ∈ (runCore sense_data sMin sMax
          (pull_clean_report_file locs data).1 cMin cMax).1.false_negative,
        (fnr.zone, fnr.elevator) ∈ locs) := by
  have hloc : ∀ s ∈ (pull_clean_report_file locs data).1, (s.zone, s.elevator) ∈ locs := by
    intro s hs
    simp only [pull_clean_report_file] at hs
    obtain ⟨rec, hrec, hsf⟩ := List.mem_flatMap.mp hs
    have h2 := (List.mem_filter.mp hsf).2
    simpa [List.elem_iff] using h2
  refine ⟨?_, hloc, ?_⟩
  · have hFr : (get_elevator_records r).filter (fun nr =>
        locs.contains (nr.zone, nr.elevator)) = [] := by
      rw [List.filter_eq_nil_iff]
      intro s hs hc
      exact hr s hs (by simpa [List.elem_iff] using hc)
    have happ : (data ++ [r]).flatMap (fun record => (get_elevator_records record).filter
          (fun nr => locs.contains (nr.zone, nr.elevator)))
        = data.flatMap (fun record => (get_elevator_records record).filter
          (fun nr => locs.contains (nr.zone, nr.elevator))) := by
      rw [List.flatMap_append]
      simp only [List.flatMap_cons, List.flatMap_nil, List.append_nil]
      rw [hFr, List.append_nil]
    simp only [pull_clean_report_file, happ]
  · intro sense_data sMin sMax cMin cMax fnr hfnr
    rw [runCore_eq, correlateAndSweep_fn, sweepFN_eq] at hfnr
    have hmem := List.mem_of_mem_filter hfnr
    have h1 : clearFlag fnr ∈ (dictRecords ((correlateAndSweep
        (list_to_dict (fun r => r.dt) (fun r => r.zone) (fun r => r.elevator)
          sense_data (windowMin sMin cMin) (windowMax sMax cMax))
        (list_to_dict (fun r => r.dt) (fun r => r.zone) (fun r => r.elevator)
          (pull_clean_report_file locs data).1
          (windowMin sMin cMin) (windowMax sMax cMax))).2)).map clearFlag :=
      List.mem_map_of_mem clearFlag hmem
    rw [correlateAndSweep_clean_map] at h1
    obtain ⟨x, hx, hxe⟩ := List.mem_map.mp h1
    have hxl := (mem_list_to_dict _ _ _ _ _ _ x hx).1
    have hkey := hloc x hxl
    have hz : x.zone = fnr.zone := by
      have h3 := congrArg CleanRecord.zone hxe
      exact h3
    have he : x.elevator = fnr.elevator := by
      have h3 := congrArg CleanRecord.elevator hxe
      exact h3
    rw [← hz, ← he]
    exact hkey



/-- Witness for C9: appending a maintenance record whose (zone, elevator) has
no alerts leaves the filtered list and the min/max timestamps unchanged. -/
theorem C9_location_filter_witness :
    pull_clean_report_file [("alewife", "101")] ([c9CleanKept] ++ [c9CleanDropped])
      = pull_clean_report_file [("alewife", "101")] [c9CleanKept] :=
  (C9_location_filter [("alewife", "101")] [c9CleanKept] c9CleanDropped (by decide)).1
